import Mathlib

/-!
Shallow embedding of the err-rss feed-polling and delivery engine
(`src/rss.py`, the capability-complete variant designated canonical by the
design notes), together with theorems checking the specification's claims.

Modelling conventions:
* Published timestamps are `Int` instants (the code normalizes every entry's
  `published` field with `read_date` into an `arrow` instant before any
  comparison; instants compare totally, which `Int` models).
* Python dicts keyed by strings are association lists preserving insertion
  order; a dict update `d[k] = v` on an existing key replaces in place.
* Fallible code returns `Option`/`Except`: `none`/`.error` marks a raised
  Python exception at that point.
* Network traffic is an oracle `Nat → Option FetchResponse` giving the
  response of the i-th HTTP attempt (`none` = exception during the request).
-/

/-- An RSS/Atom entry after the touch-up loop in `_report_feed`:
`published` is the normalized instant, `title`/`link` the display payload. -/
structure Entry where
  title : String
  link : String
  published : Int
deriving DecidableEq, Repr

/-- Embeds `published_date(entry)` (`rss.py` line 40): the published field of an
entry; after touch-up this is the normalized instant. -/
def published_date (e : Entry) : Int :=
  e.published

/-- The result of `feedparser.parse`: the `feed['feed']` dict may or may not
carry a `title` key, and `feed['entries']` is a list of entries. -/
structure ParsedFeed where
  title : Option String
  entries : List Entry
deriving DecidableEq, Repr

/-- Embeds `RoomFeed` (`rss.py` lines 104-109): room id, the launching message
(modelled by its destination `frm`), and the watermark `last_check`. -/
structure RoomFeed where
  room_id : String
  frm : String
  last_check : Int
deriving DecidableEq, Repr

/-- Embeds `Feed` (`rss.py` lines 112-140): title, url, per-url config and the
`roomfeeds` dict keyed by room id. -/
structure Feed where
  name : String
  url : String
  config : List (String × String)
  roomfeeds : List (String × RoomFeed)
deriving DecidableEq, Repr

/-- Embeds `Rss._pick_recent_entries_from` (`rss.py` lines 415-444).  On an empty
entry list the tuple unpacking `oldest, *__, newest = entries` raises
(`none`); otherwise the selection is the entries whose published date is
strictly greater than `check_date`. -/
def pick_recent_entries_from (entries : List Entry) (check_date : Int) :
    Option (List Entry) :=
  match entries with
  | [] => none
  | _ :: _ => some (entries.filter fun e => check_date < published_date e)

/-- Embeds `entries.sort(key=published_date)` in `_report_feed` (`rss.py` line 397):
stable ascending sort by the normalized published instant. -/
def sort_entries (entries : List Entry) : List Entry :=
  entries.mergeSort fun a b => published_date a ≤ published_date b

/-- The body of the per-room loop of `_report_feed` (`rss.py` lines 400-413):
select the recent entries for one subscription; when the selection is
non-empty, send it and advance the watermark to the published date of the
last selected entry (`set_roomfeed_last_check`, lines 242-244); otherwise
leave the room feed untouched.  Returns (entries sent, updated room feed). -/
def report_room (entries : List Entry) (rf : RoomFeed) :
    Option (List Entry × RoomFeed) :=
  (pick_recent_entries_from entries rf.last_check).map fun recent =>
    match recent.getLast? with
    | none => ([], rf)
    | some newest => (recent, { rf with last_check := newest.published })

/-- Embeds `Rss._report_feed` (`rss.py` lines 373-413): a `None` fetch result or an
empty entry list skips the feed (no deliveries, no watermark change); else
the entries are sorted ascending by published date and each subscription is
processed by `report_room`.  Returns (deliveries per room, updated rooms). -/
def report_feed (feed_content : Option ParsedFeed)
    (roomfeeds : List (String × RoomFeed)) :
    List (String × List Entry) × List (String × RoomFeed) :=
  match feed_content with
  | none => ([], roomfeeds)
  | some fc =>
    if fc.entries.isEmpty then ([], roomfeeds)
    else
      let entries := sort_entries fc.entries
      let results := roomfeeds.map fun p =>
        match report_room entries p.2 with
        | some (sent, rf) => ((p.1, sent), (p.1, rf))
        | none => ((p.1, []), (p.1, p.2))
      (results.map Prod.fst, results.map Prod.snd)

/-- The feed-iteration part of `Rss.check_feeds` (`rss.py` lines 355-367):
every feed of the registry is checked in order, independently of the others;
the fetch outcome for each url is given by the oracle `fetch`. -/
def check_feeds (feeds : List (String × Feed))
    (fetch : String → Option ParsedFeed) :
    List (String × (List (String × List Entry) × List (String × RoomFeed))) :=
  feeds.map fun tf => (tf.1, report_feed (fetch tf.2.url) tf.2.roomfeeds)

/-- Embeds the `header.lstrip('*').split('/', 1)` pieces: split a string at the first
slash, returning the part before it and, when a slash occurs, the part
after it. -/
def splitFirstSlash (s : String) : String × Option String :=
  let cs := s.toList
  match cs.dropWhile (fun c => !(c == '/')) with
  | [] => (s, none)
  | _ :: tail => (String.mk (cs.takeWhile fun c => !(c == '/')), some (String.mk tail))

/-- Python `s.startswith(pre)`: character-wise prefix test. -/
def str_starts_with (s pre : String) : Bool :=
  pre.toList.isPrefixOf s.toList

/-- Python `s.endswith(suf)`: character-wise suffix test. -/
def str_ends_with (s suf : String) : Bool :=
  suf.toList.isSuffixOf s.toList

/-- Embeds `header_matches_url` (`rss.py` lines 572-585) applied to the domain and
path components `urlsplit` extracts from the url: strip leading stars from
the header, strip leading slashes from the url path; a `domain/path` header
matches when the url path starts with the header path and the url domain
ends with the header domain; a bare `domain` header matches when the url
domain ends with it. -/
def header_matches_url (header domain apath : String) : Bool :=
  let stripped := String.mk (header.toList.dropWhile fun c => c == '*')
  let apath' := String.mk (apath.toList.dropWhile fun c => c == '/')
  match splitFirstSlash stripped with
  | (hd, some hp) => str_starts_with apath' hp && str_ends_with domain hd
  | (hd, none) => str_ends_with domain hd

/-- Embeds `Rss._find_url_ini_config` (`rss.py` lines 252-262): start from the empty
config and overwrite it with each ini section whose header matches the url,
so the last matching section wins; no match leaves the empty config. -/
def find_url_ini_config (ini : List (String × List (String × String)))
    (domain apath : String) : List (String × String) :=
  ini.foldl
    (fun config hs => if header_matches_url hs.1 domain apath then hs.2 else config)
    []

/-- Computes `timedelta.seconds` of a non-negative duration of `d` whole seconds:
the seconds component after whole days are split off, i.e. `d % 86400`
(Python `datetime.timedelta` normalization; `arrow` subtraction yields a
`timedelta`). -/
def timedelta_seconds (d : Nat) : Nat :=
  d % 86400

/-- The `interval` setter (`rss.py` lines 273-282) restricted to the stored
config value: a positive value is stored as is, any other value stores 0
(and disables scheduling). -/
def set_interval_value (v : Nat) : Nat :=
  if v > 0 then v else 0

/-- The adaptive-interval step at the top of `Rss.check_feeds` (`rss.py`
lines 347-351): when `self.delta.seconds` is at least the current interval,
the interval is set to `self.delta.seconds`; `deltaTotal` is the previous
cycle duration in whole seconds. -/
def adapt_interval (deltaTotal : Nat) (interval : Nat) : Nat :=
  if timedelta_seconds deltaTotal ≥ interval then
    set_interval_value (timedelta_seconds deltaTotal)
  else interval

/-- The per-url ini section as used by `_read_url`/`login`: the value of the
`auth_type` key when present. Credentials themselves do not influence the
control flow modelled here. -/
structure UrlConfig where
  auth_type : Option String
deriving DecidableEq, Repr

/-- One HTTP response: status code and the feed structure that
`feedparser.parse` produces from its body (`feedparser.parse` never raises). -/
structure FetchResponse where
  status : Nat
  feed : ParsedFeed
deriving DecidableEq, Repr

/-- Embeds `Rss._read_url` together with `Rss.login` (`rss.py` lines 284-306): when
the config carries an `auth_type` other than `django_csrf`, `login` raises
`ValueError` (`none`); otherwise the request proceeds and the oracle's
response (or network exception) is the outcome. -/
def read_url (config : UrlConfig) (response : Option FetchResponse) :
    Option FetchResponse :=
  match config.auth_type with
  | some t => if t == "django_csrf" then response else none
  | none => response

/-- The body of one `read_feed` attempt after `_read_url` (`rss.py` lines
322-325): `raise_for_status` raises on a 4xx/5xx status, `feedparser.parse`
yields the feed, and `assert 'title' in feed['feed']` raises when the feed
dict has no `title` key.  `none` marks a raised exception. -/
def attempt_parse (resp : Option FetchResponse) : Option ParsedFeed :=
  match resp with
  | none => none
  | some r =>
    if 400 ≤ r.status ∧ r.status < 600 then none
    else if r.feed.title.isSome then some r.feed
    else none

/-- The `while tries_left:` loop of `Rss.read_feed` (`rss.py` lines 319-333)
instrumented with the number of attempts performed: `attempt` is the index
of the next attempt, the second component of the result counts the attempts
actually made.  A successful attempt returns its feed at once; exhausting
`tries_left` returns `none`. -/
def read_feed_go (config : UrlConfig) (oracle : Nat → Option FetchResponse)
    (attempt : Nat) : Nat → Option ParsedFeed × Nat
  | 0 => (none, attempt)
  | n + 1 =>
    match attempt_parse (read_url config (oracle attempt)) with
    | some feed => (some feed, attempt + 1)
    | none => read_feed_go config oracle (attempt + 1) n

/-- Embeds `Rss.read_feed` (`rss.py` lines 308-333) with its default retry budget
`tries`: the parsed feed of the first successful attempt, or `none` after
all attempts failed, paired with the number of attempts made. -/
def read_feed (config : UrlConfig) (oracle : Nat → Option FetchResponse)
    (tries : Nat) : Option ParsedFeed × Nat :=
  read_feed_go config oracle 0 tries

/-- Embeds `Feed.isin` (`rss.py` lines 136-137): whether a room id is a key of the
`roomfeeds` dict. -/
def Feed.isin (f : Feed) (room_id : String) : Bool :=
  f.roomfeeds.any fun p => p.1 == room_id

/-- Embeds `Feed.add_room` (`rss.py` lines 120-131): raises `KeyError` (`none`)
when the room is already registered for this feed, otherwise inserts a new
`RoomFeed` under the room id. -/
def Feed.add_room (f : Feed) (room_id frm : String) (last_check : Int) :
    Option Feed :=
  if f.isin room_id then none
  else some { f with roomfeeds := f.roomfeeds ++ [(room_id, ⟨room_id, frm, last_check⟩)] }

/-- The feed registry: the persisted `feeds` dict keyed by feed title. -/
abbrev Registry := List (String × Feed)

/-- Embeds `Rss._is_feed_in_room` (`rss.py` lines 246-250). -/
def is_feed_in_room (feeds : Registry) (feed_title room_id : String) : Bool :=
  match feeds.lookup feed_title with
  | none => false
  | some f => f.isin room_id

/-- Embeds `Rss.add_feed` (`rss.py` lines 220-225): store a fresh `Feed` object
under its title (an existing entry under the same title is replaced in
place, a new title is appended, as for a Python dict). -/
def add_feed (feeds : Registry) (feed_title url : String)
    (config : List (String × String)) : Registry :=
  let new_feed : Feed := ⟨feed_title, url, config, []⟩
  if (feeds.lookup feed_title).isSome then
    feeds.map fun p => if p.1 == feed_title then (p.1, new_feed) else p
  else feeds ++ [(feed_title, new_feed)]

/-- Embeds `Rss.add_room_to_feed` (`rss.py` lines 227-231): `feeds[feed_title]`
raises `KeyError` (`none`) when the title is absent; otherwise the feed's
`add_room` runs and the updated feed replaces the old one in place. -/
def add_room_to_feed (feeds : Registry) (feed_title room_id frm : String)
    (check_date : Int) : Option Registry :=
  match feeds.lookup feed_title with
  | none => none
  | some f =>
    (f.add_room room_id frm check_date).map fun f' =>
      feeds.map fun p => if p.1 == feed_title then (p.1, f') else p

/-- The duplicate-watch notice returned by `_register_roomfeed`. -/
def already_watching_msg (feed_title : String) : String :=
  "I am already watching " ++ feed_title ++ " for this room."

/-- The success message returned by `_register_roomfeed`. -/
def watching_msg (feed_title url : String) : String :=
  "watching [" ++ feed_title ++ "](" ++ url ++ ")"

/-- Embeds `Rss._register_roomfeed` (`rss.py` lines 458-483): a feed already
watched for this room yields the informational duplicate notice and no
mutation; otherwise the feed is created if absent and the room is added to
it.  `none` marks an uncaught `KeyError`. -/
def register_roomfeed (feeds : Registry) (feed_title : String)
    (check_date : Int) (url : String) (config : List (String × String))
    (room_id frm : String) : Option (String × Registry) :=
  if is_feed_in_room feeds feed_title room_id then
    some (already_watching_msg feed_title, feeds)
  else
    (add_room_to_feed
      (if (feeds.lookup feed_title).isSome then feeds
       else add_feed feeds feed_title url config)
      feed_title room_id frm check_date).map
      fun feeds2 => (watching_msg feed_title url, feeds2)

/-- Embeds `get_feed_dates` (`rss.py` lines 49-54): the published dates of the
entries, the empty list for an empty entry list. -/
def get_feed_dates (entries : List Entry) : List Int :=
  if entries.isEmpty then []
  else entries.map published_date

/-- Python truthiness of an `arrow.Arrow` instant: `arrow` defines no
`__bool__`/`__len__`, so every instant is truthy. -/
def arrow_truthy (_ : Int) : Bool :=
  true

/-- Exceptions escaping `_watch_feed`. -/
inductive WatchError where
  | indexError
  | keyError
deriving DecidableEq, Repr

/-- Embeds `Rss._watch_feed` (`rss.py` lines 485-508): a `None` fetch answers with
the not-found message; otherwise `sorted(get_feed_dates(feed['entries']))[0]`
raises `IndexError` on an empty entry list before any emptiness check; with
no explicit `check_date` the first entry date is used when truthy, else the
current time `now`; finally the room feed is registered.  `fetched` is the
result of `read_feed` for the url. -/
def watch_feed (fetched : Option ParsedFeed) (check_date? : Option Int)
    (now : Int) (feeds : Registry) (url : String)
    (config : List (String × String)) (room_id frm : String) :
    Except WatchError (String × Registry) :=
  match fetched with
  | none => .ok ("Could not find a feed at " ++ url, feeds)
  | some feed =>
    match (get_feed_dates feed.entries).mergeSort (fun a b => a ≤ b) with
    | [] => .error .indexError
    | feed_first_date :: _ =>
      let check_date :=
        match check_date? with
        | none => if arrow_truthy feed_first_date then feed_first_date else now
        | some d => d
      match feed.title with
      | none => .error .keyError
      | some feed_title =>
        match register_roomfeed feeds feed_title check_date url config room_id frm with
        | none => .error .keyError
        | some r => .ok r

/-! ## Helper lemmas -/

/-- The entry order used throughout: ascending normalized published date. -/
def entryLE (a b : Entry) : Prop :=
  published_date a ≤ published_date b

instance : DecidableRel entryLE := fun a b => by
  unfold entryLE; infer_instance

lemma sort_entries_sorted (entries : List Entry) :
    (sort_entries entries).Pairwise entryLE := by
  have h := @List.sorted_mergeSort Entry
    (fun a b : Entry => decide (published_date a ≤ published_date b))
    (fun a b c hab hbc => by
      simp only [decide_eq_true_eq] at *; exact le_trans hab hbc)
    (fun a b => by
      simp only [Bool.or_eq_true, decide_eq_true_eq]; exact le_total _ _)
    entries
  refine h.imp ?_
  intro a b hab
  simpa [entryLE] using hab

lemma sort_entries_ne_nil {entries : List Entry} (h : entries ≠ []) :
    sort_entries entries ≠ [] := by
  intro hc
  have := congrArg List.length hc
  simp [sort_entries] at this
  exact h this

/-- Evaluates `report_room` on a non-empty entry list: explicit description of the
sent entries and the updated room feed. -/
lemma report_room_eq (entries : List Entry) (rf : RoomFeed)
    (hne : entries ≠ []) :
    report_room entries rf =
      some (match (entries.filter fun e => rf.last_check < published_date e).getLast? with
            | none => ([], rf)
            | some newest =>
              (entries.filter fun e => rf.last_check < published_date e,
               { rf with last_check := newest.published })) := by
  match entries, hne with
  | e :: es, _ => rfl

example : pick_recent_entries_from [⟨"a", "l", 5⟩] 5 = some [] := by decide
example : pick_recent_entries_from [⟨"a", "l", 5⟩, ⟨"b", "l", 7⟩] 5 =
    some [⟨"b", "l", 7⟩] := by decide
example : report_room [⟨"a", "l", 3⟩, ⟨"b", "l", 7⟩] ⟨"r", "f", 5⟩ =
    some ([⟨"b", "l", 7⟩], ⟨"r", "f", 7⟩) := by decide
example : report_feed none [("r", ⟨"r", "f", 5⟩)] = ([], [("r", ⟨"r", "f", 5⟩)]) := by
  decide

/-! ## Claim theorems -/

/-- C1: for every feed check and every subscription, the selection made by
`_pick_recent_entries_from` is exactly the set of entries whose normalized
published date is strictly greater than the subscription watermark
`check_date`; an entry whose published date equals the watermark is never
selected, and no selected entry has a published date at or below the
watermark. -/
theorem pick_recent_entries_strictly_newer (entries : List Entry)
    (check_date : Int) (hne : entries ≠ []) :
    ∃ recent, pick_recent_entries_from entries check_date = some recent ∧
      (∀ e, e ∈ recent ↔ e ∈ entries ∧ check_date < published_date e) ∧
      (∀ e ∈ entries, published_date e = check_date → e ∉ recent) ∧
      (∀ e ∈ recent, ¬ published_date e ≤ check_date) := by
  match entries, hne with
  | e0 :: es, _ =>
    refine ⟨(e0 :: es).filter fun e => check_date < published_date e, rfl, ?_, ?_, ?_⟩
    · intro e
      simp [List.mem_filter]
    · intro e _ heq hmem
      rw [List.mem_filter] at hmem
      simp [heq] at hmem
    · intro e hmem
      rw [List.mem_filter] at hmem
      have := hmem.2
      simp at this
      omega

/-- Witness for C1 at a concrete input: two entries, watermark 5; only the
entry published at 7 is selected, the entry published exactly at 5 is not. -/
theorem pick_recent_entries_strictly_newer_witness :
    ∃ recent,
      pick_recent_entries_from [⟨"a", "l", 5⟩, ⟨"b", "l", 7⟩] 5 = some recent ∧
      (∀ e, e ∈ recent ↔ e ∈ [Entry.mk "a" "l" 5, Entry.mk "b" "l" 7] ∧
        5 < published_date e) ∧
      (∀ e ∈ [Entry.mk "a" "l" 5, Entry.mk "b" "l" 7],
        published_date e = 5 → e ∉ recent) ∧
      (∀ e ∈ recent, ¬ published_date e ≤ 5) :=
  pick_recent_entries_strictly_newer [⟨"a", "l", 5⟩, ⟨"b", "l", 7⟩] 5 (by decide)

/-- C2: for every feed check (a fetched feed with a non-empty entry list)
and every subscription of that feed: the entries sent to that subscription
are in ascending published order; when nothing is selected the room feed is
left untouched; when the selection is non-empty the updated watermark is the
published date of the last delivered entry (room id and destination are
unchanged). -/
theorem report_feed_watermark_tracks_last_delivered (fc : ParsedFeed)
    (rfs : List (String × RoomFeed)) (hne : fc.entries ≠ []) (i : Nat)
    (rid : String) (rf : RoomFeed) (hrf : rfs[i]? = some (rid, rf)) :
    ∃ sent rf',
      (report_feed (some fc) rfs).1[i]? = some (rid, sent) ∧
      (report_feed (some fc) rfs).2[i]? = some (rid, rf') ∧
      sent.Pairwise entryLE ∧
      (sent = [] → rf' = rf) ∧
      ∀ h : sent ≠ [],
        rf'.last_check = published_date (sent.getLast h) ∧
        rf'.room_id = rf.room_id ∧ rf'.frm = rf.frm := by
  have hs : sort_entries fc.entries ≠ [] := sort_entries_ne_nil hne
  have hsorted := sort_entries_sorted fc.entries
  have hempty : fc.entries.isEmpty = false := by
    simp only [List.isEmpty_eq_false]
    exact hne
  simp only [report_feed, hempty, Bool.false_eq_true, if_false,
    List.getElem?_map, hrf, Option.map_some', report_room_eq _ _ hs]
  cases hlast :
      ((sort_entries fc.entries).filter fun e =>
        rf.last_check < published_date e).getLast? with
  | none =>
    have hfil := List.getLast?_eq_none_iff.mp hlast
    refine ⟨[], rf, ?_, ?_, ?_, ?_, ?_⟩
    · simp [hlast]
    · simp [hlast]
    · exact List.Pairwise.nil
    · intro; rfl
    · intro h; exact absurd rfl h
  | some newest =>
    set sent := (sort_entries fc.entries).filter fun e =>
      rf.last_check < published_date e with hsent
    have hsne : sent ≠ [] := by
      intro hc
      rw [hc] at hlast
      simp at hlast
    refine ⟨sent, { rf with last_check := newest.published }, ?_, ?_, ?_, ?_, ?_⟩
    · simp [hlast]
    · simp [hlast]
    · exact hsorted.filter _
    · intro hc; exact absurd hc hsne
    · intro h
      refine ⟨?_, rfl, rfl⟩
      have := List.getLast?_eq_getLast sent h
      rw [this] at hlast
      simp only [Option.some.injEq] at hlast
      rw [← hlast]
      rfl

/-- Witness for C2 at a concrete input: one feed with entries published at
3 and 7, one subscription with watermark 5; the entry at 7 is delivered and
the watermark becomes 7. -/
theorem report_feed_watermark_tracks_last_delivered_witness :
    ∃ sent rf',
      (report_feed (some ⟨some "T", [⟨"a", "l", 3⟩, ⟨"b", "l", 7⟩]⟩)
        [("r", ⟨"r", "f", 5⟩)]).1[0]? = some ("r", sent) ∧
      (report_feed (some ⟨some "T", [⟨"a", "l", 3⟩, ⟨"b", "l", 7⟩]⟩)
        [("r", ⟨"r", "f", 5⟩)]).2[0]? = some ("r", rf') ∧
      sent.Pairwise entryLE ∧
      (sent = [] → rf' = ⟨"r", "f", 5⟩) ∧
      ∀ h : sent ≠ [],
        rf'.last_check = published_date (sent.getLast h) ∧
        rf'.room_id = "r" ∧ rf'.frm = "f" :=
  report_feed_watermark_tracks_last_delivered
    ⟨some "T", [⟨"a", "l", 3⟩, ⟨"b", "l", 7⟩]⟩ [("r", ⟨"r", "f", 5⟩)]
    (by decide) 0 "r" ⟨"r", "f", 5⟩ (by decide)

lemma foldl_overwrite {α β : Type} (p : α → Bool) (f : α → β) (l : List α)
    (acc : β) :
    l.foldl (fun config x => if p x then f x else config) acc =
      (((l.filter p).getLast?).map f).getD acc := by
  induction l using List.reverseRecOn generalizing acc with
  | nil => rfl
  | append_singleton xs x ih =>
    rw [List.foldl_append, List.foldl_cons, List.foldl_nil, ih, List.filter_append]
    by_cases h : p x
    · simp [h, List.getLast?_concat]
    · simp [h]

/-- C3: credential resolution keeps overwriting its result with every
matching ini section, so it returns the body of the last rule in
declaration order whose header matches and the empty config when none does;
and a header matches exactly when the url domain ends with the header's
domain part and, when the header carries a path part, the url path with its
leading slashes stripped starts with that path part. -/
theorem find_url_ini_config_last_match_wins
    (ini : List (String × List (String × String))) (domain apath : String) :
    (find_url_ini_config ini domain apath =
      ((((ini.filter fun hs => header_matches_url hs.1 domain apath).getLast?).map
        fun hs => hs.2).getD [])) ∧
    (∀ header hd hp,
      splitFirstSlash (String.mk (header.toList.dropWhile fun c => c == '*')) =
        (hd, some hp) →
      (header_matches_url header domain apath = true ↔
        str_ends_with domain hd = true ∧
        str_starts_with (String.mk (apath.toList.dropWhile fun c => c == '/')) hp = true)) ∧
    (∀ header hd,
      splitFirstSlash (String.mk (header.toList.dropWhile fun c => c == '*')) =
        (hd, none) →
      (header_matches_url header domain apath = true ↔
        str_ends_with domain hd = true)) := by
  refine ⟨by
    unfold find_url_ini_config
    exact foldl_overwrite (fun hs => header_matches_url hs.1 domain apath)
      (fun hs => hs.2) ini [], ?_, ?_⟩
  · intro header hd hp hsplit
    rw [header_matches_url, hsplit]
    simp [Bool.and_eq_true, and_comm]
  · intro header hd hsplit
    rw [header_matches_url, hsplit]

/-- Witness for C3 at the specification's own example: rules
`example.com ↦ A` then `example.com/blog ↦ B` and the url
`https://sub.example.com/blog/post1`; both rules match and resolution
returns `B`, the later more specific rule. -/
theorem find_url_ini_config_last_match_wins_witness :
    (find_url_ini_config
        [("example.com", [("username", "A")]),
         ("example.com/blog", [("username", "B")])]
        "sub.example.com" "/blog/post1" =
      (((([("example.com", [("username", "A")]),
           ("example.com/blog", [("username", "B")])] :
             List (String × List (String × String))).filter
          fun hs => header_matches_url hs.1 "sub.example.com" "/blog/post1").getLast?.map
        fun hs => hs.2).getD [])) ∧
    (header_matches_url "example.com/blog" "sub.example.com" "/blog/post1" = true ↔
      (str_ends_with "sub.example.com" "example.com" = true ∧
        str_starts_with
          (String.mk ("/blog/post1".toList.dropWhile fun c => c == '/')) "blog" = true)) ∧
    find_url_ini_config
        [("example.com", [("username", "A")]),
         ("example.com/blog", [("username", "B")])]
        "sub.example.com" "/blog/post1" = [("username", "B")] := by
  have h := find_url_ini_config_last_match_wins
    [("example.com", [("username", "A")]),
     ("example.com/blog", [("username", "B")])]
    "sub.example.com" "/blog/post1"
  exact ⟨h.1, h.2.1 "example.com/blog" "example.com" "blog" (by decide), by decide⟩

lemma read_feed_go_all_fail (config : UrlConfig)
    (oracle : Nat → Option FetchResponse) :
    ∀ (n a : Nat),
      (∀ i, a ≤ i → i < a + n → attempt_parse (read_url config (oracle i)) = none) →
      read_feed_go config oracle a n = (none, a + n) := by
  intro n
  induction n with
  | zero => intro a _; rfl
  | succ m ih =>
    intro a h
    have ha : attempt_parse (read_url config (oracle a)) = none :=
      h a (Nat.le_refl a) (by omega)
    simp only [read_feed_go, ha]
    rw [ih (a + 1) fun i h1 h2 => h i (by omega) (by omega)]
    simp only [Prod.mk.injEq]
    exact ⟨trivial, by omega⟩

lemma read_feed_go_success (config : UrlConfig)
    (oracle : Nat → Option FetchResponse) :
    ∀ (n a k : Nat) (f : ParsedFeed), a ≤ k → k < a + n →
      attempt_parse (read_url config (oracle k)) = some f →
      (∀ j, a ≤ j → j < k → attempt_parse (read_url config (oracle j)) = none) →
      read_feed_go config oracle a n = (some f, k + 1) := by
  intro n
  induction n with
  | zero => intro a k f h1 h2 _ _; omega
  | succ m ih =>
    intro a k f hak hk hsucc hfail
    by_cases hka : k = a
    · subst hka
      simp only [read_feed_go, hsucc]
    · have ha : attempt_parse (read_url config (oracle a)) = none :=
        hfail a (Nat.le_refl a) (by omega)
      simp only [read_feed_go, ha]
      exact ih (a + 1) k f (by omega) (by omega) hsucc
        fun j hj1 hj2 => hfail j (by omega) hj2

lemma read_feed_go_count_le (config : UrlConfig)
    (oracle : Nat → Option FetchResponse) :
    ∀ (n a : Nat), (read_feed_go config oracle a n).2 ≤ a + n := by
  intro n
  induction n with
  | zero => intro a; simp [read_feed_go]
  | succ m ih =>
    intro a
    cases hx : attempt_parse (read_url config (oracle a)) with
    | some f => simp only [read_feed_go, hx]; omega
    | none =>
      simp only [read_feed_go, hx]
      exact le_trans (ih (a + 1)) (by omega)

lemma read_feed_go_some_inv (config : UrlConfig)
    (oracle : Nat → Option FetchResponse) :
    ∀ (n a : Nat) (f : ParsedFeed),
      (read_feed_go config oracle a n).1 = some f →
      ∃ k, a ≤ k ∧ k < a + n ∧
        attempt_parse (read_url config (oracle k)) = some f ∧
        ∀ j, a ≤ j → j < k → attempt_parse (read_url config (oracle j)) = none := by
  intro n
  induction n with
  | zero => intro a f h; simp [read_feed_go] at h
  | succ m ih =>
    intro a f h
    cases hx : attempt_parse (read_url config (oracle a)) with
    | some g =>
      simp only [read_feed_go, hx] at h
      refine ⟨a, Nat.le_refl a, by omega, by rw [hx, h], fun j h1 h2 => by omega⟩
    | none =>
      simp only [read_feed_go, hx] at h
      obtain ⟨k, hk1, hk2, hk3, hk4⟩ := ih (a + 1) f h
      refine ⟨k, by omega, by omega, hk3, fun j hj1 hj2 => ?_⟩
      by_cases hja : j = a
      · subst hja; exact hx
      · exact hk4 j (by omega) hj2

/-- C4: `read_feed` makes at most 3 attempts; it returns a feed exactly when
some attempt below the budget succeeds and every earlier attempt failed; if
the first 3 attempts all fail it returns `none` having used the whole
budget; and the first success at attempt `k` ends the loop immediately
after `k + 1` attempts. -/
theorem read_feed_retry_budget (config : UrlConfig)
    (oracle : Nat → Option FetchResponse) :
    ((read_feed config oracle 3).2 ≤ 3) ∧
    (∀ f, (read_feed config oracle 3).1 = some f ↔
      ∃ k, k < 3 ∧ attempt_parse (read_url config (oracle k)) = some f ∧
        ∀ j, j < k → attempt_parse (read_url config (oracle j)) = none) ∧
    ((∀ i, i < 3 → attempt_parse (read_url config (oracle i)) = none) →
      read_feed config oracle 3 = (none, 3)) ∧
    (∀ k f, k < 3 → attempt_parse (read_url config (oracle k)) = some f →
      (∀ j, j < k → attempt_parse (read_url config (oracle j)) = none) →
      read_feed config oracle 3 = (some f, k + 1)) := by
  refine ⟨?_, ?_, ?_, ?_⟩
  · simpa [read_feed] using read_feed_go_count_le config oracle 3 0
  · intro f
    constructor
    · intro h
      obtain ⟨k, _, hk3, hs, hf⟩ := read_feed_go_some_inv config oracle 3 0 f h
      exact ⟨k, by omega, hs, fun j hj => hf j (Nat.zero_le j) hj⟩
    · rintro ⟨k, hk3, hs, hf⟩
      have := read_feed_go_success config oracle 3 0 k f (Nat.zero_le k) (by omega)
        hs fun j _ hj => hf j hj
      rw [read_feed, this]
  · intro h
    simpa [read_feed] using
      read_feed_go_all_fail config oracle 3 0 fun i _ h2 => h i (by omega)
  · intro k f hk hs hf
    simpa [read_feed] using
      read_feed_go_success config oracle 3 0 k f (Nat.zero_le k) (by omega) hs
        fun j _ hj => hf j hj

/-- Witness for C4 at the specification's own example: HTTP 500 on the
first two attempts, 200 with a valid feed on the third; the parsed feed is
returned after exactly 3 attempts. -/
theorem read_feed_retry_budget_witness :
    read_feed ⟨none⟩
      (fun i => if i < 2 then some ⟨500, ⟨some "T", []⟩⟩
                else some ⟨200, ⟨some "T", []⟩⟩) 3 =
      (some ⟨some "T", []⟩, 3) :=
  (read_feed_retry_budget ⟨none⟩
      (fun i => if i < 2 then some ⟨500, ⟨some "T", []⟩⟩
                else some ⟨200, ⟨some "T", []⟩⟩)).2.2.2
    2 ⟨some "T", []⟩ (by decide) (by decide) (by decide)

/-- C8 counterexample: with an unrecognized `auth_type` (here `basic`) and a
network that would deliver a perfectly good feed, `read_feed` still performs
all 3 attempts of its retry budget (the `ValueError` from `login` is caught
by the generic per-attempt handler) and then returns `None` — the claim that
the configuration error is not retried within the retry budget and is not
swallowed is false on the code. -/
theorem read_feed_bad_auth_counterexample :
    read_feed ⟨some "basic"⟩ (fun _ => some ⟨200, ⟨some "T", []⟩⟩) 3 =
      (none, 3) := by decide

/-- C8 amended: with an unrecognized `auth_type`, every fetch attempt raises
`ValueError` inside the try block, the generic handler catches it, the loop
retries through the entire budget, and `read_feed` returns `None` (the feed
is skipped for the cycle; the error never escapes `read_feed`). -/
theorem read_feed_bad_auth_exhausts_budget (config : UrlConfig) (t : String)
    (ht : config.auth_type = some t) (hne : t ≠ "django_csrf")
    (oracle : Nat → Option FetchResponse) (n : Nat) :
    read_feed config oracle n = (none, n) := by
  have hfail : ∀ i, attempt_parse (read_url config (oracle i)) = none := by
    intro i
    have hb : (t == "django_csrf") = false := by
      simp [hne]
    simp [read_url, ht, hb, attempt_parse]
  simpa [read_feed] using
    read_feed_go_all_fail config oracle n 0 fun i _ _ => hfail i

/-- Witness for C8 amended at a concrete input. -/
theorem read_feed_bad_auth_exhausts_budget_witness :
    read_feed ⟨some "plain"⟩ (fun _ => none) 2 = (none, 2) :=
  read_feed_bad_auth_exhausts_budget ⟨some "plain"⟩ "plain" rfl (by decide)
    (fun _ => none) 2

/-- C9 counterexample: a 200 response whose body parses into a feed whose
title key is present but empty is accepted: the attempt succeeds at once
(`read_feed` returns the feed after a single attempt), while the claim says
a feed that does not expose a non-empty title fails the attempt. -/
theorem attempt_empty_title_counterexample :
    attempt_parse (some ⟨200, ⟨some "", [⟨"a", "l", 1⟩]⟩⟩) =
      some ⟨some "", [⟨"a", "l", 1⟩]⟩ ∧
    read_feed ⟨none⟩ (fun _ => some ⟨200, ⟨some "", []⟩⟩) 3 =
      (some ⟨some "", []⟩, 1) := by decide

lemma attempt_parse_eq_some {r : Option FetchResponse} {f : ParsedFeed} :
    attempt_parse r = some f ↔
      ∃ resp, r = some resp ∧ ¬(400 ≤ resp.status ∧ resp.status < 600) ∧
        resp.feed.title.isSome = true ∧ resp.feed = f := by
  cases r with
  | none => simp [attempt_parse]
  | some resp =>
    by_cases h1 : 400 ≤ resp.status ∧ resp.status < 600
    · simp only [attempt_parse, if_pos h1]
      constructor
      · intro h; simp at h
      · rintro ⟨resp', heq, hcond, _, _⟩
        injection heq with heq'
        subst heq'
        exact absurd h1 hcond
    · by_cases h2 : resp.feed.title.isSome = true
      · simp only [attempt_parse, if_neg h1, if_pos h2]
        constructor
        · intro h
          injection h with h'
          exact ⟨resp, rfl, h1, h2, h'⟩
        · rintro ⟨resp', heq, _, _, hfeed⟩
          injection heq with heq'
          subst heq'
          rw [hfeed]
      · simp only [attempt_parse, if_neg h1, if_neg h2]
        constructor
        · intro h; simp at h
        · rintro ⟨resp', heq, _, htit, _⟩
          injection heq with heq'
          subst heq'
          exact absurd htit h2

/-- C9 amended: an attempt succeeds exactly on a non-4xx/5xx response whose
parsed feed carries a `title` key (possibly mapping to an empty string); a
response whose feed has no `title` key fails exactly like a network error
(`attempt_parse none`); consequently whatever `read_feed` returns exposes a
title key. -/
theorem attempt_requires_title_key (r : Option FetchResponse)
    (f : ParsedFeed) :
    (attempt_parse r = some f ↔
      ∃ resp, r = some resp ∧ ¬(400 ≤ resp.status ∧ resp.status < 600) ∧
        resp.feed.title.isSome = true ∧ resp.feed = f) ∧
    (∀ (s : Nat) (es : List Entry),
      attempt_parse (some ⟨s, ⟨none, es⟩⟩) = attempt_parse none) ∧
    (∀ (config : UrlConfig) (oracle : Nat → Option FetchResponse) (n : Nat)
      (g : ParsedFeed),
      (read_feed config oracle n).1 = some g → g.title.isSome = true) := by
  refine ⟨attempt_parse_eq_some, ?_, ?_⟩
  · intro s es
    by_cases h : 400 ≤ s ∧ s < 600 <;> simp [attempt_parse, h]
  · intro config oracle n g h
    obtain ⟨k, _, _, hs, _⟩ := read_feed_go_some_inv config oracle n 0 g h
    obtain ⟨resp, _, _, htitle, hfeed⟩ := attempt_parse_eq_some.mp hs
    rw [← hfeed]
    exact htitle

/-- Witness for C9 amended at a concrete input: the feed returned by a
successful fetch exposes a title key. -/
theorem attempt_requires_title_key_witness :
    (ParsedFeed.mk (some "T") []).title.isSome = true :=
  (attempt_requires_title_key (some ⟨200, ⟨some "T", []⟩⟩)
      ⟨some "T", []⟩).2.2
    ⟨none⟩ (fun _ => some ⟨200, ⟨some "T", []⟩⟩) 3 ⟨some "T", []⟩ (by decide)

/-- C5: a polling cycle produces one result per registered feed (the cycle
always runs to completion), each feed's result depends only on that feed's
own fetch outcome, and a feed whose fetch yields `None` or an empty entry
list is skipped: it produces no deliveries and leaves every one of its
subscriptions' watermarks unchanged. -/
theorem check_feeds_isolates_feed_failures (feeds : List (String × Feed))
    (fetch : String → Option ParsedFeed) :
    ((check_feeds feeds fetch).length = feeds.length) ∧
    (∀ i : Nat, (check_feeds feeds fetch)[i]? =
      (feeds[i]?).map fun tf => (tf.1, report_feed (fetch tf.2.url) tf.2.roomfeeds)) ∧
    (∀ tf ∈ feeds,
      (fetch tf.2.url = none ∨ ∃ fc, fetch tf.2.url = some fc ∧ fc.entries = []) →
      report_feed (fetch tf.2.url) tf.2.roomfeeds = ([], tf.2.roomfeeds)) := by
  refine ⟨by simp [check_feeds], ?_, ?_⟩
  · intro i
    simp [check_feeds]
  · rintro tf _ (h | ⟨fc, hfc, he⟩)
    · rw [h]; rfl
    · rw [hfc]
      simp [report_feed, he]

/-- Witness for C5 at a concrete input: two feeds, the first one's fetch
fails; the first feed is skipped with its subscription untouched while the
cycle still produces a result for each feed. -/
theorem check_feeds_isolates_feed_failures_witness :
    report_feed
        ((fun u => if u == "bad" then none
                   else some ⟨some "T", [⟨"a", "l", 1⟩]⟩) "bad")
        [("r", ⟨"r", "f", 0⟩)] =
      ([], [("r", ⟨"r", "f", 0⟩)]) :=
  (check_feeds_isolates_feed_failures
      [("B", ⟨"B", "bad", [], [("r", ⟨"r", "f", 0⟩)]⟩),
       ("G", ⟨"G", "good", [], [("r", ⟨"r", "f", 0⟩)]⟩)]
      (fun u => if u == "bad" then none
                else some ⟨some "T", [⟨"a", "l", 1⟩]⟩)).2.2
    ("B", ⟨"B", "bad", [], [("r", ⟨"r", "f", 0⟩)]⟩)
    (by decide) (Or.inl (by decide))

lemma lookup_map_replace (fs : Registry) (t : String) (f' : Feed)
    (h : (fs.lookup t).isSome = true) :
    (fs.map fun p => if p.1 == t then (p.1, f') else p).lookup t = some f' := by
  induction fs with
  | nil => simp at h
  | cons x xs ih =>
    obtain ⟨k, v⟩ := x
    by_cases hx : k = t
    · subst hx
      have hb : ((k, v).1 == k) = true := beq_iff_eq.mpr rfl
      rw [List.map_cons, if_pos hb, List.lookup_cons]
      simp [hb]
    · have hb : ((k, v).1 == t) = false := beq_eq_false_iff_ne.mpr hx
      have hb' : (t == k) = false := beq_eq_false_iff_ne.mpr (Ne.symm hx)
      have hh : (xs.lookup t).isSome = true := by
        rw [List.lookup_cons] at h
        simpa [hb'] using h
      rw [List.map_cons, if_neg (by simp [hb]), List.lookup_cons]
      simpa [hb'] using ih hh

lemma add_room_to_feed_isin (fs : Registry) (t r frm : String) (cd : Int)
    (fs' : Registry) (h : add_room_to_feed fs t r frm cd = some fs') :
    is_feed_in_room fs' t r = true := by
  unfold add_room_to_feed at h
  cases hl : fs.lookup t with
  | none => simp [hl] at h
  | some fd =>
    simp only [hl] at h
    cases ha : fd.add_room r frm cd with
    | none => simp [ha] at h
    | some fd' =>
      simp only [ha, Option.map_some', Option.some.injEq] at h
      unfold is_feed_in_room
      rw [← h, lookup_map_replace fs t fd' (by rw [hl]; rfl)]
      unfold Feed.add_room at ha
      by_cases hin : fd.isin r = true
      · rw [if_pos hin] at ha; simp at ha
      · rw [if_neg hin] at ha
        injection ha with ha'
        rw [← ha']
        simp [Feed.isin, List.any_append]

/-- C6: once a destination is subscribed to a feed, any further watch
request for that feed from the same destination returns the informational
already-watching response and leaves the registry exactly as it was: no
second subscription is created and the existing watermark is untouched. -/
theorem register_roomfeed_duplicate_noop (feeds : Registry)
    (feed_title : String) (check_date : Int) (url : String)
    (config : List (String × String)) (room_id frm m : String)
    (feeds1 : Registry) (check_date' : Int) (url' : String)
    (config' : List (String × String)) (frm' : String)
    (h : register_roomfeed feeds feed_title check_date url config room_id frm =
      some (m, feeds1)) :
    is_feed_in_room feeds1 feed_title room_id = true ∧
    register_roomfeed feeds1 feed_title check_date' url' config' room_id frm' =
      some (already_watching_msg feed_title, feeds1) := by
  have h1 : is_feed_in_room feeds1 feed_title room_id = true := by
    unfold register_roomfeed at h
    by_cases hg : is_feed_in_room feeds feed_title room_id = true
    · rw [if_pos hg] at h
      simp only [Option.some.injEq, Prod.mk.injEq] at h
      rw [← h.2]
      exact hg
    · rw [if_neg hg] at h
      cases ha : add_room_to_feed
          (if (feeds.lookup feed_title).isSome = true then feeds
           else add_feed feeds feed_title url config)
          feed_title room_id frm check_date with
      | none => rw [ha] at h; simp at h
      | some fs2 =>
        rw [ha] at h
        simp only [Option.map_some', Option.some.injEq, Prod.mk.injEq] at h
        rw [← h.2]
        exact add_room_to_feed_isin _ _ _ _ _ _ ha
  refine ⟨h1, ?_⟩
  unfold register_roomfeed
  rw [if_pos h1]

/-- Witness for C6 at a concrete input: after a first successful watch of
feed `F` by room `r`, a repeated watch returns the duplicate notice and the
registry (including the watermark 0) is unchanged. -/
theorem register_roomfeed_duplicate_noop_witness :
    is_feed_in_room [("F", ⟨"F", "u", [], [("r", ⟨"r", "me", 0⟩)]⟩)] "F" "r" = true ∧
    register_roomfeed [("F", ⟨"F", "u", [], [("r", ⟨"r", "me", 0⟩)]⟩)]
        "F" 9 "u2" [] "r" "me2" =
      some (already_watching_msg "F",
        [("F", ⟨"F", "u", [], [("r", ⟨"r", "me", 0⟩)]⟩)]) :=
  register_roomfeed_duplicate_noop [] "F" 0 "u" [] "r" "me"
    (watching_msg "F" "u") [("F", ⟨"F", "u", [], [("r", ⟨"r", "me", 0⟩)]⟩)]
    9 "u2" [] "me2" (by decide)

/-- C7 (the code contradicts the claim and its own comment for cycles of a
day or more): the adaptive-interval step reads `timedelta.seconds`, the
seconds component modulo one day, not the total duration.  At the claim's
own example the behavior matches (75s cycle raises a 60s interval to 75s),
but a 25-hour cycle (90000s) against a 7200s interval leaves the interval
at 7200 instead of raising it to 90000, because `90000 % 86400 = 3600 < 7200`;
a cycle of 86460s against a 60s interval sets the interval to 60, not 86460. -/
theorem adapt_interval_uses_seconds_component :
    adapt_interval 75 60 = 75 ∧
    adapt_interval 90000 7200 = 7200 ∧
    adapt_interval 86460 60 = 60 ∧
    timedelta_seconds 90000 = 3600 := by decide

/-- C10: when a watch request reaches `_watch_feed` without an explicit
start date and the fetched feed has an empty entry list, the expression
`sorted(get_feed_dates(feed.entries))[0]` raises `IndexError` before any
emptiness check; the `arrow.now()` fallback is unreachable (the result
never depends on the current time `now`); and a watch of a fetched feed can
only succeed when the feed has at least one entry. -/
theorem watch_feed_requires_entries (feed : ParsedFeed) (cd? : Option Int)
    (now now' : Int) (feeds : Registry) (url : String)
    (config : List (String × String)) (room_id frm : String) :
    (feed.entries = [] →
      watch_feed (some feed) cd? now feeds url config room_id frm =
        .error .indexError) ∧
    (∀ fetched, watch_feed fetched cd? now feeds url config room_id frm =
      watch_feed fetched cd? now' feeds url config room_id frm) ∧
    (∀ mg feeds2, watch_feed (some feed) cd? now feeds url config room_id frm =
      .ok (mg, feeds2) → feed.entries ≠ []) := by
  have h1 : feed.entries = [] →
      watch_feed (some feed) cd? now feeds url config room_id frm =
        .error .indexError := by
    intro he
    simp [watch_feed, he, get_feed_dates]
  refine ⟨h1, ?_, ?_⟩
  · intro fetched
    cases fetched with
    | none => rfl
    | some fd =>
      unfold watch_feed
      cases hms : (get_feed_dates fd.entries).mergeSort (fun a b => a ≤ b) with
      | nil => rfl
      | cons d ds =>
        cases cd? with
        | none => simp [arrow_truthy]
        | some d' => rfl
  · intro mg feeds2 hok hempty
    rw [h1 hempty] at hok
    simp at hok

/-- Witness for C10 at a concrete input: watching a fetched feed with no
entries and no explicit start date raises `IndexError`. -/
theorem watch_feed_requires_entries_witness :
    watch_feed (some ⟨some "T", []⟩) none 42 [] "u" [] "r" "me" =
      .error .indexError :=
  (watch_feed_requires_entries ⟨some "T", []⟩ none 42 43 [] "u" [] "r" "me").1
    rfl
